import Mathlib

/-!
Debug categories of `pkg/logutils/logutils.go`.

A shallow embedding of the debug-category facility of golangci-lint:
the registry of `DebugKey` constants, the resolver `getEnabledDebugs` of the
`GL_DEBUG` variable, the factory `Debug`, the query `HaveDebugTag` and the
verbosity hook `SetupVerboseLog`.

Go strings are byte sequences, a Go `map[string]bool` is an association list
with unique keys, and the package-level state (the variable `enabledDebugs`,
the loggers that exist, what was written to standard error) is passed
explicitly as a `World`.
-/

namespace Logutils

/-! ## Strings and the Go library functions the package calls -/

/-- A Go string: an immutable sequence of bytes. -/
abbrev GoString := List UInt8

/-- The bytes of an ASCII literal. -/
def ascii (s : String) : GoString := s.data.map (fun ch => ch.toNat.toUInt8)

/-- The byte of the separator `","`. -/
def comma : UInt8 := 44

/-- The byte of `"/"`. -/
def slash : UInt8 := 47

/-- Go `strings.IndexByte(s, c)`: the index of the first `c` in `s`,
`none` standing for Go's `-1`. -/
def IndexByte : GoString → UInt8 → Option Nat
  | [], _ => none
  | b :: s, c => if b = c then some 0 else (IndexByte s c).map (· + 1)

/-- Go `strings.Count(s, sep)` for a one-byte separator. -/
def Count : GoString → UInt8 → Nat
  | [], _ => 0
  | b :: s, c => if b = c then Count s c + 1 else Count s c

/-- The loop of Go `strings.genSplit` with `sepSave = 0` and a one-byte
separator: at most `n` times, cut `s` at the first separator
(`a[i] = s[:m]; s = s[m+len(sep):]`); what is left is the last piece. -/
def genSplitLoop (sep : UInt8) : Nat → GoString → List GoString
  | 0, s => [s]
  | n + 1, s =>
    match IndexByte s sep with
    | none => [s]
    | some m => s.take m :: genSplitLoop sep n (s.drop (m + 1))

/-- Go `strings.Split(s, sep)` for a one-byte separator, as `genSplit(s, sep, 0, -1)`
computes it: `n = Count(s, sep) + 1` pieces are reserved, capped at `len(s) + 1`,
and the loop runs while `i < n - 1`. -/
def Split (s : GoString) (sep : UInt8) : List GoString :=
  let n := Count s sep + 1
  let n := if n > s.length + 1 then s.length + 1 else n
  genSplitLoop sep (n - 1) s

/-! ## The process environment -/

/-- The environment of the process: variable names with their values. -/
abbrev Env := List (GoString × GoString)

/-- Go `os.Getenv(key)`: the value of the variable, `""` when it is not set. -/
def Getenv (env : Env) (key : GoString) : GoString :=
  match env.lookup key with
  | some v => v
  | none => []

/-! ## Go maps of type `map[string]bool` -/

/-- A Go `map[string]bool`: the entries of the map, each key at most once. -/
abbrev GoMap := List (GoString × Bool)

namespace GoMap

/-- The index expression `m[k]`: the stored value, the zero value `false` for
a key that is not in the map. -/
def get (m : GoMap) (k : GoString) : Bool :=
  match m.lookup k with
  | some v => v
  | none => false

/-- The assignment `m[k] = v`: the entry of `k` is replaced or added. -/
def set (m : GoMap) (k : GoString) (v : Bool) : GoMap :=
  (k, v) :: m.filter (fun e => e.1 != k)

/-- Go `len(m)`: the number of entries. -/
def len (m : GoMap) : Nat := m.length

end GoMap

/-! ## The registry of debug keys -/

/-- The name of the environment variable, `const envDebug = "GL_DEBUG"`. -/
def envDebug : GoString := ascii "GL_DEBUG"

def DebugKeyAutogenExclude : GoString := ascii "autogen_exclude"
def DebugKeyBinSalt : GoString := ascii "bin_salt"
def DebugKeyConfigReader : GoString := ascii "config_reader"
def DebugKeyEmpty : GoString := ascii ""
def DebugKeyEnabledLinters : GoString := ascii "enabled_linters"
def DebugKeyEnv : GoString := ascii "env"
def DebugKeyExcludeRules : GoString := ascii "exclude_rules"
def DebugKeyExec : GoString := ascii "exec"
def DebugKeyFilenameUnadjuster : GoString := ascii "filename_unadjuster"
def DebugKeyForbidigo : GoString := ascii "forbidigo"
def DebugKeyGoEnv : GoString := ascii "goenv"
def DebugKeyLinter : GoString := ascii "linter"
def DebugKeyLintersContext : GoString := ascii "linters_context"
def DebugKeyLintersDB : GoString := ascii "lintersdb"
def DebugKeyLintersOutput : GoString := ascii "linters_output"
def DebugKeyLoader : GoString := ascii "loader"
def DebugKeyMaxFromLinter : GoString := ascii "max_from_linter"
def DebugKeyMaxSameIssues : GoString := ascii "max_same_issues"
def DebugKeyPkgCache : GoString := ascii "pkgcache"
def DebugKeyRunner : GoString := ascii "runner"
def DebugKeySeverityRules : GoString := ascii "severity_rules"
def DebugKeySkipDirs : GoString := ascii "skip_dirs"
def DebugKeySourceCode : GoString := ascii "source_code"
def DebugKeyStopwatch : GoString := ascii "stopwatch"
def DebugKeyTabPrinter : GoString := ascii "tab_printer"
def DebugKeyTest : GoString := ascii "test"
def DebugKeyTextPrinter : GoString := ascii "text_printer"

def DebugKeyGoAnalysis : GoString := ascii "goanalysis"
def DebugKeyGoAnalysisAnalyze : GoString := DebugKeyGoAnalysis ++ ascii "/analyze"
def DebugKeyGoAnalysisIssuesCache : GoString := DebugKeyGoAnalysis ++ ascii "/issues/cache"
def DebugKeyGoAnalysisMemory : GoString := DebugKeyGoAnalysis ++ ascii "/memory"
def DebugKeyGoAnalysisFacts : GoString := DebugKeyGoAnalysis ++ ascii "/facts"
def DebugKeyGoAnalysisFactsCache : GoString := DebugKeyGoAnalysisFacts ++ ascii "/cache"
def DebugKeyGoAnalysisFactsExport : GoString := DebugKeyGoAnalysisFacts ++ ascii "/export"
def DebugKeyGoAnalysisFactsInherit : GoString := DebugKeyGoAnalysisFacts ++ ascii "/inherit"

def DebugKeyGoCritic : GoString := ascii "gocritic"
def DebugKeyMegacheck : GoString := ascii "megacheck"
def DebugKeyNolint : GoString := ascii "nolint"
def DebugKeyRevive : GoString := ascii "revive"

/-- The registry: every `DebugKey` constant of the three `const` blocks, in
the order of the source. -/
def debugKeys : List GoString :=
  [DebugKeyAutogenExclude, DebugKeyBinSalt, DebugKeyConfigReader, DebugKeyEmpty,
   DebugKeyEnabledLinters, DebugKeyEnv, DebugKeyExcludeRules, DebugKeyExec,
   DebugKeyFilenameUnadjuster, DebugKeyForbidigo, DebugKeyGoEnv, DebugKeyLinter,
   DebugKeyLintersContext, DebugKeyLintersDB, DebugKeyLintersOutput, DebugKeyLoader,
   DebugKeyMaxFromLinter, DebugKeyMaxSameIssues, DebugKeyPkgCache, DebugKeyRunner,
   DebugKeySeverityRules, DebugKeySkipDirs, DebugKeySourceCode, DebugKeyStopwatch,
   DebugKeyTabPrinter, DebugKeyTest, DebugKeyTextPrinter,
   DebugKeyGoAnalysis, DebugKeyGoAnalysisAnalyze, DebugKeyGoAnalysisIssuesCache,
   DebugKeyGoAnalysisMemory, DebugKeyGoAnalysisFacts, DebugKeyGoAnalysisFactsCache,
   DebugKeyGoAnalysisFactsExport, DebugKeyGoAnalysisFactsInherit,
   DebugKeyGoCritic, DebugKeyMegacheck, DebugKeyNolint, DebugKeyRevive]

/-! ## The resolver and the query -/

/-- The body of `for _, tag := range tokens { ret[tag] = true }`. -/
def rangeSetTrue (tokens : List GoString) (ret : GoMap) : GoMap :=
  tokens.foldl (fun ret tag => ret.set tag true) ret

/-- The function `getEnabledDebugs`, reading the environment `env`. -/
def getEnabledDebugs (env : Env) : GoMap :=
  let ret : GoMap := []
  let debugVar := Getenv env envDebug
  if debugVar = [] then ret
  else rangeSetTrue (Split debugVar comma) ret

/-- The function `HaveDebugTag`, reading the package variable `enabledDebugs`. -/
def HaveDebugTag (enabledDebugs : GoMap) (tag : GoString) : Bool :=
  enabledDebugs.get tag

/-! ## The external logger -/

/-- Modelled from the spec: the levels of the external logger, whose
declaration (`LogLevel`, `LogLevelDebug`, `LogLevelInfo`) is in another file of
the package: "an ordered set of levels (at least: debug, info, and higher)".
A level is a number, debug the lowest, info next, everything above is higher. -/
abbrev LogLevel := Nat

/-- Modelled from the spec: the missing constant `LogLevelDebug`, the lowest level. -/
def LogLevelDebug : LogLevel := 0

/-- Modelled from the spec: the missing constant `LogLevelInfo`, the level
right above debug. -/
def LogLevelInfo : LogLevel := 1

/-- Modelled from the spec: the missing type behind `Log`, "a named, leveled
sink" whose "minimum level is mutable". -/
structure StderrLog where
  name : GoString
  level : LogLevel
  deriving DecidableEq

/-- One line written by a logger: which handle wrote it, at which level, and
the format template and arguments it was given. -/
structure Emission (Value : Type) where
  logger : GoString
  level : LogLevel
  format : GoString
  args : List Value
  deriving DecidableEq

/-- The state of the process that the package reads and writes: the package
variable `enabledDebugs`, the logger handles that exist (a handle is an index
into `loggers`), the level a fresh handle starts with, and the emissions
written so far, oldest first. `Value` is the type of Go values passed as
`args ...interface{}`. -/
structure World (Value : Type) where
  enabledDebugs : GoMap
  loggers : List StderrLog
  freshLevel : LogLevel
  stderr : List (Emission Value)
  deriving DecidableEq

/-- Modelled from the spec: the filter of a "level-filtered" logger with a
"minimum emission level": an emission at level `e` passes a logger whose
minimum level is `min` when `min ≤ e`. -/
def passesFilter (min e : LogLevel) : Bool := decide (min ≤ e)

/-- Modelled from the spec: the missing `NewStderrLog(name)`,
"construct-by-name returning a handle": a new handle is added. -/
def NewStderrLog {Value : Type} (w : World Value) (name : GoString) : Nat × World Value :=
  (w.loggers.length,
   { w with loggers := w.loggers ++ [{ name := name, level := w.freshLevel }] })

/-- Modelled from the spec: the missing method `SetLevel`, "a settable minimum
level": the level of the handle `log` becomes `level`. -/
def SetLevel {Value : Type} (w : World Value) (log : Nat) (level : LogLevel) : World Value :=
  match w.loggers[log]? with
  | none => w
  | some l => { w with loggers := w.loggers.set log { l with level := level } }

/-- Modelled from the spec: the missing method `Debugf`, "a debug-level
emission call taking a format template and arguments", through the filter
of the handle. -/
def Debugf {Value : Type} (w : World Value) (log : Nat) (format : GoString)
    (args : List Value) : World Value :=
  match w.loggers[log]? with
  | none => w
  | some l =>
    if passesFilter l.level LogLevelDebug then
      { w with stderr := w.stderr ++
          [{ logger := l.name, level := LogLevelDebug, format := format, args := args }] }
    else w

/-- Modelled from the spec: whether an emission at level `e` through the
handle `log` is written, that is, passes the filter of the handle. -/
def passes {Value : Type} (w : World Value) (log : Nat) (e : LogLevel) : Bool :=
  match w.loggers[log]? with
  | none => false
  | some l => passesFilter l.level e

/-! ## The factory and the verbosity hook -/

/-- A value of the type `DebugFunc`: the function `nopDebugf`, or the function
literal of `Debug` with the handle `logger` it captured. -/
inductive DebugFunc where
  | nopDebugf
  | funcLit (logger : Nat)
  deriving DecidableEq

/-- Calling a `DebugFunc`: the body of `nopDebugf` is empty, the function
literal runs `logger.Debugf(format, args...)`. -/
def DebugFunc.call {Value : Type} (f : DebugFunc) (format : GoString) (args : List Value)
    (w : World Value) : World Value :=
  match f with
  | DebugFunc.nopDebugf => w
  | DebugFunc.funcLit logger => Debugf w logger format args

/-- The function `Debug`. -/
def Debug {Value : Type} (w : World Value) (tag : GoString) : DebugFunc × World Value :=
  if !(w.enabledDebugs.get tag) then (DebugFunc.nopDebugf, w)
  else
    let (logger, w) := NewStderrLog w tag
    let w := SetLevel w logger LogLevelDebug
    (DebugFunc.funcLit logger, w)

/-- The function `SetupVerboseLog`. -/
def SetupVerboseLog {Value : Type} (w : World Value) (log : Nat) (isVerbose : Bool) :
    World Value :=
  if isVerbose then SetLevel w log LogLevelInfo else w

/-- A run of calls of one `DebugFunc`, each with its format and arguments, in order. -/
def DebugFunc.callAll {Value : Type} (f : DebugFunc) (calls : List (GoString × List Value))
    (w : World Value) : World Value :=
  calls.foldl (fun w c => f.call c.1 c.2 w) w

/-- The debug-level emission of one call `(format, args)` through the handle
named `name`. -/
def debugEmission {Value : Type} (name : GoString) (c : GoString × List Value) :
    Emission Value :=
  { logger := name, level := LogLevelDebug, format := c.1, args := c.2 }

/-! ## The words of the specification -/

/-- The pieces obtained by cutting a string at every separator, empty pieces
included. -/
def cutAt (sep : UInt8) : GoString → List GoString
  | [] => [[]]
  | b :: s =>
    if b = sep then [] :: cutAt sep s
    else
      match cutAt sep s with
      | [] => [[b]]
      | p :: ps => (b :: p) :: ps

/-- The comma-separated tokens of a configuration string: an empty string has
none, a non-empty string has the pieces obtained by cutting it at every comma. -/
def tokens (s : GoString) : List GoString :=
  if s = [] then [] else cutAt comma s

/-- The string `c` is a piece of `s` between two cuts: `c` holds no separator and
stands in `s` with, on each side, an end of `s` or a separator. -/
def IsPiece (sep : UInt8) (c s : GoString) : Prop :=
  sep ∉ c ∧ ∃ l r, s = l ++ c ++ r ∧
    (l = [] ∨ ∃ l1, l = l1 ++ [sep]) ∧ (r = [] ∨ ∃ r1, r = sep :: r1)

/-! ## Worlds used as concrete inputs -/

/-- A world right after package initialisation: `enabledDebugs` resolved from
`GL_DEBUG = debugVar`, no logger yet, nothing written; fresh handles start at
level 2, above info. -/
def initWorld (debugVar : GoString) : World Nat :=
  { enabledDebugs := getEnabledDebugs [(envDebug, debugVar)],
    loggers := [], freshLevel := 2, stderr := [] }

/-- A world with two loggers, the first at level debug and the second above info. -/
def twoLoggers : World Nat :=
  { enabledDebugs := [],
    loggers := [{ name := ascii "main", level := LogLevelDebug },
                { name := ascii "other", level := 2 }],
    freshLevel := 2, stderr := [] }

/-- An environment in which `HOME` is set before `GL_DEBUG = debugVar`. -/
def homeEnv (debugVar : GoString) : Env :=
  [(ascii "HOME", ascii "/root"), (envDebug, debugVar)]

/-- The world `twoLoggers` after package initialisation in the environment `env`. -/
def twoLoggersIn (env : Env) : World Nat :=
  { twoLoggers with enabledDebugs := getEnabledDebugs env }

/-! ## `strings.Split` cuts at every separator -/

theorem Count_le_length (s : GoString) (c : UInt8) : Count s c ≤ s.length := by
  induction s with
  | nil => simp [Count]
  | cons b s ih =>
    simp only [Count, List.length_cons]
    split <;> omega

theorem Split_eq_loop (s : GoString) (sep : UInt8) :
    Split s sep = genSplitLoop sep (Count s sep) s := by
  have h := Count_le_length s sep
  simp only [Split]
  rw [if_neg (by omega)]
  rfl

theorem IndexByte_none {s : GoString} {c : UInt8} (h : IndexByte s c = none) : c ∉ s := by
  induction s with
  | nil => simp
  | cons b s ih =>
    simp only [IndexByte] at h
    split at h
    · cases h
    · rename_i hb
      simp only [Option.map_eq_none'] at h
      simp only [List.mem_cons, not_or]
      exact ⟨fun e => hb e.symm, ih h⟩

theorem IndexByte_some {s : GoString} {c : UInt8} {m : Nat} (h : IndexByte s c = some m) :
    s = s.take m ++ c :: s.drop (m + 1) ∧ c ∉ s.take m := by
  induction s generalizing m with
  | nil => simp [IndexByte] at h
  | cons b s ih =>
    simp only [IndexByte] at h
    split at h
    · rename_i hb
      cases h
      simp [hb]
    · rename_i hb
      simp only [Option.map_eq_some'] at h
      obtain ⟨k, hk, rfl⟩ := h
      obtain ⟨h1, h2⟩ := ih hk
      refine ⟨?_, ?_⟩
      · simp only [List.take_succ_cons, List.drop_succ_cons, List.cons_append]
        rw [← h1]
      · simp only [List.take_succ_cons, List.mem_cons, not_or]
        exact ⟨fun e => hb e.symm, h2⟩

theorem Count_of_not_mem {s : GoString} {c : UInt8} (h : c ∉ s) : Count s c = 0 := by
  induction s with
  | nil => rfl
  | cons b s ih =>
    simp only [List.mem_cons, not_or] at h
    simp only [Count]
    rw [if_neg (fun e => h.1 e.symm)]
    exact ih h.2

theorem Count_append (a b : GoString) (c : UInt8) : Count (a ++ b) c = Count a c + Count b c := by
  induction a with
  | nil => simp [Count]
  | cons x a ih =>
    show Count (x :: (a ++ b)) c = _
    simp only [Count]
    split <;> omega

theorem Count_cons_self (s : GoString) (c : UInt8) : Count (c :: s) c = Count s c + 1 := by
  simp [Count]

theorem Count_of_index {s : GoString} {c : UInt8} {m : Nat} (h : IndexByte s c = some m) :
    Count s c = Count (s.drop (m + 1)) c + 1 := by
  obtain ⟨h1, h2⟩ := IndexByte_some h
  conv_lhs => rw [h1]
  rw [Count_append, Count_of_not_mem h2, Count_cons_self]
  omega

theorem cutAt_unfold (sep : UInt8) (s : GoString) :
    cutAt sep s =
      match IndexByte s sep with
      | none => [s]
      | some m => s.take m :: cutAt sep (s.drop (m + 1)) := by
  induction s with
  | nil => simp [cutAt, IndexByte]
  | cons b s ih =>
    by_cases hb : b = sep
    · simp [cutAt, IndexByte, hb]
    · simp only [cutAt, IndexByte, if_neg hb]
      rw [ih]
      cases hi : IndexByte s sep with
      | none => simp
      | some m => simp

theorem genSplitLoop_eq_cutAt (sep : UInt8) (n : Nat) (s : GoString) (h : Count s sep ≤ n) :
    genSplitLoop sep n s = cutAt sep s := by
  induction n generalizing s with
  | zero =>
    rw [cutAt_unfold]
    cases hi : IndexByte s sep with
    | none => simp [genSplitLoop]
    | some m =>
      have := Count_of_index hi
      omega
  | succ n ih =>
    rw [cutAt_unfold]
    simp only [genSplitLoop]
    cases hi : IndexByte s sep with
    | none => simp
    | some m =>
      have := Count_of_index hi
      simp only
      rw [ih _ (by omega)]

/-- What `strings.Split` returns is the list of pieces cut at every separator. -/
theorem Split_eq_cutAt (s : GoString) (sep : UInt8) : Split s sep = cutAt sep s := by
  rw [Split_eq_loop]
  exact genSplitLoop_eq_cutAt sep _ s (Nat.le_refl _)

/-! ## The pieces of a string -/

theorem cutAt_ne_nil (sep : UInt8) (s : GoString) : cutAt sep s ≠ [] := by
  cases s with
  | nil => simp [cutAt]
  | cons b s =>
    simp only [cutAt]
    split
    · simp
    · split <;> simp

theorem cutAt_of_not_mem {sep : UInt8} {s : GoString} (h : sep ∉ s) : cutAt sep s = [s] := by
  induction s with
  | nil => rfl
  | cons b s ih =>
    simp only [List.mem_cons, not_or] at h
    simp only [cutAt]
    rw [if_neg (fun e => h.1 e.symm), ih h.2]

theorem cutAt_sep_cons (sep : UInt8) (s : GoString) :
    cutAt sep (sep :: s) = [] :: cutAt sep s := by
  simp [cutAt]

/-- Cutting a string that holds a separator: the pieces of what is before it,
then the pieces of what is after it. -/
theorem cutAt_append (sep : UInt8) (a b : GoString) :
    cutAt sep (a ++ sep :: b) = cutAt sep a ++ cutAt sep b := by
  induction a with
  | nil => simp [cutAt]
  | cons x a ih =>
    show cutAt sep (x :: (a ++ sep :: b)) = _
    by_cases hx : x = sep
    · simp only [cutAt, if_pos hx, ih, List.cons_append]
    · simp only [cutAt, if_neg hx, ih]
      cases hc : cutAt sep a with
      | nil => exact absurd hc (cutAt_ne_nil sep a)
      | cons p ps => simp

theorem isPiece_of_mem_cutAt (sep : UInt8) (n : Nat) :
    ∀ (s c : GoString), s.length ≤ n → c ∈ cutAt sep s → IsPiece sep c s := by
  induction n with
  | zero =>
    intro s c hs hc
    have hs0 : s = [] := List.eq_nil_of_length_eq_zero (by omega)
    subst hs0
    simp only [cutAt, List.mem_singleton] at hc
    subst hc
    exact ⟨by simp, [], [], by simp, Or.inl rfl, Or.inl rfl⟩
  | succ n ih =>
    intro s c hs hc
    rw [cutAt_unfold] at hc
    cases hi : IndexByte s sep with
    | none =>
      rw [hi] at hc
      simp only [List.mem_singleton] at hc
      subst hc
      exact ⟨IndexByte_none hi, [], [], by simp, Or.inl rfl, Or.inl rfl⟩
    | some m =>
      rw [hi] at hc
      obtain ⟨h1, h2⟩ := IndexByte_some hi
      simp only [List.mem_cons] at hc
      rcases hc with hc | hc
      · subst hc
        exact ⟨h2, [], sep :: s.drop (m + 1), by simpa using h1, Or.inl rfl, Or.inr ⟨_, rfl⟩⟩
      · have hlen : (s.drop (m + 1)).length ≤ n := by
          have : s.length = (s.take m ++ sep :: s.drop (m + 1)).length := by rw [← h1]
          simp only [List.length_append, List.length_cons] at this
          omega
        obtain ⟨hc1, l, r, hlr, hl, hr⟩ := ih _ c hlen hc
        refine ⟨hc1, s.take m ++ sep :: l, r, ?_, Or.inr ?_, hr⟩
        · conv_lhs => rw [h1, hlr]
          simp
        · rcases hl with hl | ⟨l1, hl⟩
          · exact ⟨s.take m, by simp [hl]⟩
          · exact ⟨s.take m ++ sep :: l1, by simp [hl]⟩

theorem mem_cutAt_of_isPiece {sep : UInt8} {c s : GoString} (h : IsPiece sep c s) :
    c ∈ cutAt sep s := by
  obtain ⟨hc, l, r, hlr, hl, hr⟩ := h
  subst hlr
  rcases hl with hl | ⟨l1, hl⟩ <;> rcases hr with hr | ⟨r1, hr⟩ <;> subst hl <;> subst hr
  · simp [cutAt_of_not_mem hc]
  · simp [cutAt_append, cutAt_of_not_mem hc]
  · simp [cutAt_append, cutAt_of_not_mem hc]
  · have e : l1 ++ [sep] ++ c ++ sep :: r1 = l1 ++ sep :: (c ++ sep :: r1) := by simp
    rw [e, cutAt_append, cutAt_append, cutAt_of_not_mem hc]
    simp

/-- The pieces cut at every separator are the separator-free stretches of the
string that have an end of the string or a separator on each side. -/
theorem mem_cutAt_iff (sep : UInt8) (c s : GoString) : c ∈ cutAt sep s ↔ IsPiece sep c s :=
  ⟨isPiece_of_mem_cutAt sep s.length s c (Nat.le_refl _), mem_cutAt_of_isPiece⟩

/-! ## Reading the map that the resolver builds -/

theorem lookup_filter_ne (m : GoMap) (k c : GoString) (h : c ≠ k) :
    (m.filter (fun e => e.1 != k)).lookup c = m.lookup c := by
  induction m with
  | nil => rfl
  | cons e m ih =>
    obtain ⟨k1, v1⟩ := e
    by_cases hk : k1 = k
    · subst hk
      have hne : (c == k1) = false := by simpa using h
      simp [List.filter_cons, List.lookup_cons, hne, ih]
    · have hk2 : (k1 != k) = true := by simpa using hk
      simp only [List.filter_cons, hk2, if_true, List.lookup_cons, ih]

theorem GoMap.get_set (m : GoMap) (k c : GoString) (v : Bool) :
    (m.set k v).get c = if c = k then v else m.get c := by
  by_cases h : c = k
  · subst h
    simp [GoMap.get, GoMap.set, List.lookup_cons]
  · have hne : (c == k) = false := by simpa using h
    simp only [GoMap.get, GoMap.set, List.lookup_cons, hne, if_neg h]
    rw [lookup_filter_ne m k c h]

theorem get_rangeSetTrue (toks : List GoString) (m : GoMap) (c : GoString) :
    (rangeSetTrue toks m).get c = (decide (c ∈ toks) || m.get c) := by
  induction toks generalizing m with
  | nil => simp [rangeSetTrue]
  | cons t toks ih =>
    have e : rangeSetTrue (t :: toks) m = rangeSetTrue toks (m.set t true) := rfl
    rw [e, ih, GoMap.get_set]
    by_cases h : c = t
    · simp [h]
    · simp [h]

theorem GoMap.get_nil (c : GoString) : GoMap.get [] c = false := rfl

/-- The enabled names are the pieces of a non-empty `GL_DEBUG`. -/
theorem haveDebugTag_eq (env : Env) (c : GoString) :
    HaveDebugTag (getEnabledDebugs env) c = decide (c ∈ tokens (Getenv env envDebug)) := by
  simp only [HaveDebugTag, getEnabledDebugs, tokens]
  by_cases h : Getenv env envDebug = []
  · simp [h, GoMap.get_nil]
  · simp only [if_neg h]
    rw [get_rangeSetTrue, Split_eq_cutAt, GoMap.get_nil, Bool.or_false]

theorem haveDebugTag_iff (env : Env) (c : GoString) :
    HaveDebugTag (getEnabledDebugs env) c = true ↔ c ∈ tokens (Getenv env envDebug) := by
  rw [haveDebugTag_eq]
  simp

theorem mem_tokens_iff (c s : GoString) : c ∈ tokens s ↔ s ≠ [] ∧ IsPiece comma c s := by
  simp only [tokens]
  by_cases h : s = []
  · simp [h]
  · simp [h, mem_cutAt_iff]

/-! ## The factory, step by step -/

theorem Debug_of_disabled {Value : Type} (w : World Value) (tag : GoString)
    (h : w.enabledDebugs.get tag = false) : Debug w tag = (DebugFunc.nopDebugf, w) := by
  simp [Debug, h]

theorem SetLevel_last {Value : Type} (w : World Value) (l : StderrLog) (level : LogLevel) :
    SetLevel { w with loggers := w.loggers ++ [l] } w.loggers.length level =
      { w with loggers := w.loggers ++ [{ l with level := level }] } := by
  simp [SetLevel, List.getElem?_concat_length]

theorem Debug_of_enabled {Value : Type} (w : World Value) (tag : GoString)
    (h : w.enabledDebugs.get tag = true) :
    Debug w tag = (DebugFunc.funcLit w.loggers.length,
      { w with loggers := w.loggers ++ [{ name := tag, level := LogLevelDebug }] }) := by
  simp only [Debug, h, Bool.not_true, NewStderrLog]
  rw [if_neg (by simp)]
  simp only [SetLevel_last]

theorem Debugf_of_debug {Value : Type} (w : World Value) (log : Nat) (name : GoString)
    (format : GoString) (args : List Value)
    (h : w.loggers[log]? = some { name := name, level := LogLevelDebug }) :
    Debugf w log format args =
      { w with stderr := w.stderr ++
          [{ logger := name, level := LogLevelDebug, format := format, args := args }] } := by
  simp [Debugf, h, passesFilter]

theorem callAll_funcLit {Value : Type} (log : Nat) (name : GoString)
    (calls : List (GoString × List Value)) (w : World Value)
    (h : w.loggers[log]? = some { name := name, level := LogLevelDebug }) :
    (DebugFunc.funcLit log).callAll calls w =
      { w with stderr := w.stderr ++ calls.map (debugEmission name) } := by
  induction calls generalizing w with
  | nil => simp [DebugFunc.callAll]
  | cons c calls ih =>
    have e : (DebugFunc.funcLit log).callAll (c :: calls) w =
        (DebugFunc.funcLit log).callAll calls (Debugf w log c.1 c.2) := rfl
    rw [e, Debugf_of_debug w log name c.1 c.2 h, ih _ (by exact h)]
    simp [debugEmission]

theorem callAll_nopDebugf {Value : Type} (calls : List (GoString × List Value))
    (w : World Value) : DebugFunc.nopDebugf.callAll calls w = w := by
  induction calls with
  | nil => rfl
  | cons c calls ih => exact ih

/-! ## The resolver: which names are enabled -/

/-- C1: for every configuration string and every category name, `HaveDebugTag`
is true after `getEnabledDebugs` exactly when the name is one of the
comma-separated tokens of the string: an empty string has no tokens, a non-empty
one has the pieces between its commas and its ends, compared byte for byte.
With `linters_output,runner` the names `linters_output` and `runner` are enabled
and `lintersdb` is not. -/
theorem haveDebugTag_iff_token :
    (∀ (env : Env) (c : GoString),
      (HaveDebugTag (getEnabledDebugs env) c = true ↔ c ∈ tokens (Getenv env envDebug)) ∧
      (c ∈ tokens (Getenv env envDebug) ↔
        Getenv env envDebug ≠ [] ∧ IsPiece comma c (Getenv env envDebug))) ∧
    HaveDebugTag (getEnabledDebugs [(envDebug, ascii "linters_output,runner")])
      (ascii "linters_output") = true ∧
    HaveDebugTag (getEnabledDebugs [(envDebug, ascii "linters_output,runner")])
      (ascii "runner") = true ∧
    HaveDebugTag (getEnabledDebugs [(envDebug, ascii "linters_output,runner")])
      (ascii "lintersdb") = false := by
  refine ⟨fun env c => ⟨haveDebugTag_iff env c, mem_tokens_iff c _⟩, ?_, ?_, ?_⟩ <;> decide

/-- C2: when `GL_DEBUG` is not set or is set to the empty string, `os.Getenv`
yields `""`, `getEnabledDebugs` returns the empty map, and `HaveDebugTag` is
false for every name, the empty name `DebugKeyEmpty` included. -/
theorem getEnabledDebugs_of_empty (env : Env)
    (h : env.lookup envDebug = none ∨ env.lookup envDebug = some []) :
    Getenv env envDebug = [] ∧ getEnabledDebugs env = [] ∧
      (∀ c : GoString, HaveDebugTag (getEnabledDebugs env) c = false) ∧
      HaveDebugTag (getEnabledDebugs env) DebugKeyEmpty = false := by
  have hg : Getenv env envDebug = [] := by
    rcases h with h | h <;> simp [Getenv, h]
  have he : getEnabledDebugs env = [] := by simp [getEnabledDebugs, hg]
  refine ⟨hg, he, fun c => ?_, ?_⟩ <;> rw [he] <;> rfl

/-- The statement of C2 at an environment without `GL_DEBUG` and at one where
it is empty. -/
theorem getEnabledDebugs_of_empty_witness :
    (getEnabledDebugs [(ascii "HOME", ascii "/root")] = [] ∧
      HaveDebugTag (getEnabledDebugs [(ascii "HOME", ascii "/root")]) (ascii "runner") = false) ∧
    (getEnabledDebugs [(envDebug, ascii "")] = [] ∧
      HaveDebugTag (getEnabledDebugs [(envDebug, ascii "")]) DebugKeyEmpty = false) :=
  ⟨⟨(getEnabledDebugs_of_empty [(ascii "HOME", ascii "/root")] (Or.inl (by decide))).2.1,
    (getEnabledDebugs_of_empty [(ascii "HOME", ascii "/root")] (Or.inl (by decide))).2.2.1 _⟩,
   ⟨(getEnabledDebugs_of_empty [(envDebug, ascii "")] (Or.inr (by decide))).2.1,
    (getEnabledDebugs_of_empty [(envDebug, ascii "")] (Or.inr (by decide))).2.2.2⟩⟩

/-! ## The factory -/

/-- C3: for every enabled set and every name, `Debug` returns `nopDebugf`
exactly when `HaveDebugTag` is false; otherwise it returns the function literal
bound to a handle named by the tag; and when the configuration string is empty
it returns the one function `nopDebugf` for every name. -/
theorem debug_inert_iff_disabled {Value : Type} (w : World Value) (tag : GoString) :
    ((Debug w tag).1 = DebugFunc.nopDebugf ↔ HaveDebugTag w.enabledDebugs tag = false) ∧
    (HaveDebugTag w.enabledDebugs tag = true →
      (Debug w tag).1 = DebugFunc.funcLit w.loggers.length ∧
      ((Debug w tag).2.loggers[w.loggers.length]?).map StderrLog.name = some tag) ∧
    (∀ env : Env, w.enabledDebugs = getEnabledDebugs env → Getenv env envDebug = [] →
      ∀ c1 c2 : GoString,
        (Debug w c1).1 = DebugFunc.nopDebugf ∧ (Debug w c1).1 = (Debug w c2).1) := by
  refine ⟨?_, ?_, ?_⟩
  · cases h : w.enabledDebugs.get tag with
    | false => simp [HaveDebugTag, h, Debug_of_disabled w tag h]
    | true => simp [HaveDebugTag, h, Debug_of_enabled w tag h]
  · intro h
    rw [Debug_of_enabled w tag h]
    simp [List.getElem?_concat_length]
  · intro env hw hs c1 c2
    have he : w.enabledDebugs = [] := by simp [hw, getEnabledDebugs, hs]
    have hd : ∀ c, w.enabledDebugs.get c = false := fun c => by rw [he]; rfl
    rw [Debug_of_disabled w c1 (hd c1), Debug_of_disabled w c2 (hd c2)]
    exact ⟨rfl, rfl⟩

/-- The statement of C3 at the configuration `linters_output,runner` for the
enabled name `runner`, and at the empty configuration for two names. -/
theorem debug_inert_iff_disabled_witness :
    ((Debug (initWorld (ascii "linters_output,runner")) (ascii "runner")).1 =
        DebugFunc.funcLit 0 ∧
      ((Debug (initWorld (ascii "linters_output,runner")) (ascii "runner")).2.loggers[0]?).map
        StderrLog.name = some (ascii "runner")) ∧
    ((Debug (initWorld (ascii "")) (ascii "runner")).1 = DebugFunc.nopDebugf ∧
      (Debug (initWorld (ascii "")) (ascii "runner")).1 =
        (Debug (initWorld (ascii "")) (ascii "loader")).1) :=
  ⟨(debug_inert_iff_disabled (initWorld (ascii "linters_output,runner")) (ascii "runner")).2.1
      (by decide),
   (debug_inert_iff_disabled (initWorld (ascii "")) (ascii "runner")).2.2
      [(envDebug, ascii "")] rfl (by decide) (ascii "runner") (ascii "loader")⟩

/-- C4: for a name in the enabled set, `Debug` adds one logger handle named
by the tag with level debug and changes nothing else; the function it returns
is the literal bound to that handle; and in every later world where that
handle is still named by the tag at level debug, whatever the other loggers
are, a run of calls appends one debug-level emission per call, with the format
and arguments of that call, in the order of the calls. -/
theorem debug_active_emits {Value : Type} (w : World Value) (tag : GoString)
    (h : HaveDebugTag w.enabledDebugs tag = true) :
    (Debug w tag).1 = DebugFunc.funcLit w.loggers.length ∧
    (Debug w tag).2 =
      { w with loggers := w.loggers ++ [{ name := tag, level := LogLevelDebug }] } ∧
    passes (Debug w tag).2 w.loggers.length LogLevelDebug = true ∧
    (∀ (format : GoString) (args : List Value),
      (Debug w tag).1.call format args (Debug w tag).2 =
        { (Debug w tag).2 with stderr := (Debug w tag).2.stderr ++
            [{ logger := tag, level := LogLevelDebug, format := format, args := args }] }) ∧
    (∀ (w2 : World Value) (calls : List (GoString × List Value)),
      w2.loggers[w.loggers.length]? = some { name := tag, level := LogLevelDebug } →
      (Debug w tag).1.callAll calls w2 =
        { w2 with stderr := w2.stderr ++ calls.map (debugEmission tag) }) := by
  rw [Debug_of_enabled w tag h]
  refine ⟨rfl, rfl, ?_, ?_, ?_⟩
  · simp [passes, List.getElem?_concat_length, passesFilter]
  · intro format args
    exact Debugf_of_debug _ _ tag format args (by simp [List.getElem?_concat_length])
  · intro w2 calls h2
    exact callAll_funcLit _ tag calls w2 h2

/-- The statement of C4 at the configuration `linters_output,runner` for the
name `runner`, with two calls. -/
theorem debug_active_emits_witness :
    (Debug (initWorld (ascii "linters_output,runner")) (ascii "runner")).1 =
      DebugFunc.funcLit 0 ∧
    ((Debug (initWorld (ascii "linters_output,runner")) (ascii "runner")).1.callAll
        [(ascii "start %d", [1]), (ascii "done", [])]
        (Debug (initWorld (ascii "linters_output,runner")) (ascii "runner")).2).stderr =
      [{ logger := ascii "runner", level := LogLevelDebug, format := ascii "start %d", args := [1] },
       { logger := ascii "runner", level := LogLevelDebug, format := ascii "done", args := [] }] :=
  ⟨(debug_active_emits (initWorld (ascii "linters_output,runner")) (ascii "runner")
      (by decide)).1,
   by
    rw [(debug_active_emits (initWorld (ascii "linters_output,runner")) (ascii "runner")
      (by decide)).2.2.2.2 _ _ (by decide)]
    decide⟩

/-! ## The verbosity hook -/

theorem SetLevel_getElem?_self {Value : Type} (w : World Value) (log : Nat) (l : StderrLog)
    (level : LogLevel) (h : w.loggers[log]? = some l) :
    (SetLevel w log level).loggers[log]? = some { l with level := level } := by
  have hlt : log < w.loggers.length := by
    rcases Nat.lt_or_ge log w.loggers.length with h1 | h1
    · exact h1
    · rw [List.getElem?_eq_none h1] at h
      cases h
  simp [SetLevel, h, List.getElem?_set_self hlt]

theorem SetLevel_getElem?_ne {Value : Type} (w : World Value) (log j : Nat) (level : LogLevel)
    (h : j ≠ log) : (SetLevel w log level).loggers[j]? = w.loggers[j]? := by
  simp only [SetLevel]
  cases w.loggers[log]? with
  | none => rfl
  | some l => simp [List.getElem?_set_ne (Ne.symm h)]

theorem SetLevel_frame {Value : Type} (w : World Value) (log : Nat) (level : LogLevel) :
    (SetLevel w log level).enabledDebugs = w.enabledDebugs ∧
    (SetLevel w log level).stderr = w.stderr ∧
    (SetLevel w log level).freshLevel = w.freshLevel ∧
    (SetLevel w log level).loggers.length = w.loggers.length := by
  simp only [SetLevel]
  cases w.loggers[log]? with
  | none => simp
  | some l => simp

/-- C5: for every logger handle and every starting level, `SetupVerboseLog`
with `false` leaves the world as it is, so the level stays what it was; with
`true` the level of the handle becomes info, whatever it was, so every emission
at info or above passes its filter; the name of the handle, the other handles,
the enabled set and what was written do not change. -/
theorem setupVerboseLog_level {Value : Type} (w : World Value) (log : Nat) (l : StderrLog)
    (h : w.loggers[log]? = some l) :
    SetupVerboseLog w log false = w ∧
    (SetupVerboseLog w log true).loggers[log]? = some { name := l.name, level := LogLevelInfo } ∧
    (∀ e : LogLevel, LogLevelInfo ≤ e → passes (SetupVerboseLog w log true) log e = true) ∧
    (∀ j : Nat, j ≠ log → (SetupVerboseLog w log true).loggers[j]? = w.loggers[j]?) ∧
    (SetupVerboseLog w log true).loggers.length = w.loggers.length ∧
    (SetupVerboseLog w log true).enabledDebugs = w.enabledDebugs ∧
    (SetupVerboseLog w log true).stderr = w.stderr ∧
    (SetupVerboseLog w log true).freshLevel = w.freshLevel := by
  have hs : SetupVerboseLog w log true = SetLevel w log LogLevelInfo := rfl
  have hl := SetLevel_getElem?_self w log l LogLevelInfo h
  obtain ⟨f1, f2, f3, f4⟩ := SetLevel_frame w log LogLevelInfo
  rw [hs]
  refine ⟨rfl, hl, ?_, fun j hj => SetLevel_getElem?_ne w log j _ hj, f4, f1, f2, f3⟩
  intro e he
  simp only [passes, hl, passesFilter]
  exact decide_eq_true he

/-- The statement of C5 at a world with two loggers, for the first one, which
starts at level debug. -/
theorem setupVerboseLog_level_witness :
    SetupVerboseLog twoLoggers 0 false = twoLoggers ∧
    (SetupVerboseLog twoLoggers 0 true).loggers[0]? =
      some { name := ascii "main", level := LogLevelInfo } ∧
    (SetupVerboseLog twoLoggers 0 true).loggers[1]? = twoLoggers.loggers[1]? :=
  ⟨(setupVerboseLog_level twoLoggers 0 { name := ascii "main", level := LogLevelDebug }
      (by decide)).1,
   (setupVerboseLog_level twoLoggers 0 { name := ascii "main", level := LogLevelDebug }
      (by decide)).2.1,
   (setupVerboseLog_level twoLoggers 0 { name := ascii "main", level := LogLevelDebug }
      (by decide)).2.2.2.1 1 (by decide)⟩

/-- C6 as stated fails: a logger at level debug lets a debug emission pass
before `SetupVerboseLog` with `true` and filters it out after, its level having
become info. -/
theorem setupVerboseLog_quiets_debug :
    passes twoLoggers 0 LogLevelDebug = true ∧
    passes (SetupVerboseLog twoLoggers 0 true) 0 LogLevelDebug = false ∧
    ¬ (∀ (w : World Nat) (log : Nat) (isVerbose : Bool) (e : LogLevel),
        passes w log e = true → passes (SetupVerboseLog w log isVerbose) log e = true) := by
  refine ⟨by decide, by decide, fun hall => ?_⟩
  have h := hall twoLoggers 0 true LogLevelDebug (by decide)
  revert h
  decide

/-- C6, amended: `SetupVerboseLog` keeps every emission level passing that
passed before when `isVerbose` is false, or the starting level of the logger is
info or higher, or the emission level is info or higher; and with `isVerbose`
true the level of the logger becomes info whatever it was. -/
theorem setupVerboseLog_keeps_passing {Value : Type} (w : World Value) (log : Nat)
    (l : StderrLog) (isVerbose : Bool) (e : LogLevel)
    (hl : w.loggers[log]? = some l)
    (hc : isVerbose = false ∨ LogLevelInfo ≤ l.level ∨ LogLevelInfo ≤ e)
    (hp : passes w log e = true) :
    passes (SetupVerboseLog w log isVerbose) log e = true ∧
    (isVerbose = true →
      ((SetupVerboseLog w log isVerbose).loggers[log]?).map StderrLog.level =
        some LogLevelInfo) := by
  cases isVerbose with
  | false => exact ⟨hp, fun h => by cases h⟩
  | true =>
    have hs : SetupVerboseLog w log true = SetLevel w log LogLevelInfo := rfl
    have hl2 := SetLevel_getElem?_self w log l LogLevelInfo hl
    rw [hs]
    refine ⟨?_, fun _ => by simp [hl2]⟩
    simp only [passes, hl, passesFilter, decide_eq_true_eq] at hp
    simp only [passes, hl2, passesFilter, decide_eq_true_eq]
    rcases hc with hc | hc | hc
    · cases hc
    · exact Nat.le_trans hc hp
    · exact hc

/-- The statement of amended C6 at a world with two loggers, for the second
one, which starts above info, and an emission at its own level. -/
theorem setupVerboseLog_keeps_passing_witness :
    passes twoLoggers 1 2 = true ∧ passes (SetupVerboseLog twoLoggers 1 true) 1 2 = true ∧
    ((SetupVerboseLog twoLoggers 1 true).loggers[1]?).map StderrLog.level = some LogLevelInfo :=
  ⟨by decide,
   (setupVerboseLog_keeps_passing twoLoggers 1 { name := ascii "other", level := 2 } true 2
      (by decide) (Or.inr (Or.inl (by decide))) (by decide)).1,
   (setupVerboseLog_keeps_passing twoLoggers 1 { name := ascii "other", level := 2 } true 2
      (by decide) (Or.inr (Or.inl (by decide))) (by decide)).2 rfl⟩

/-! ## Names with a path, the empty name, unknown names -/

theorem tokens_of_not_mem {s : GoString} (hs : s ≠ []) (hc : comma ∉ s) : tokens s = [s] := by
  simp [tokens, hs, cutAt_of_not_mem hc]

/-- C7: there is no hierarchical matching: when `q` is `p` followed by `/` and
more, `q` is a token of the configuration string and `p` is not, `HaveDebugTag`
is true for `q` and false for `p`; so a configuration string that is `q` alone,
without a comma, enables `q` and leaves `p` disabled. -/
theorem no_hierarchical_matching (env : Env) (p q : GoString)
    (hq : ∃ r : GoString, q = p ++ slash :: r)
    (hqt : q ∈ tokens (Getenv env envDebug))
    (hpt : p ∉ tokens (Getenv env envDebug)) :
    (HaveDebugTag (getEnabledDebugs env) q = true ∧
      HaveDebugTag (getEnabledDebugs env) p = false) ∧
    (∀ env2 : Env, Getenv env2 envDebug = q → comma ∉ q →
      HaveDebugTag (getEnabledDebugs env2) q = true ∧
        HaveDebugTag (getEnabledDebugs env2) p = false) := by
  refine ⟨⟨(haveDebugTag_iff env q).mpr hqt, ?_⟩, ?_⟩
  · rw [haveDebugTag_eq]
    exact decide_eq_false hpt
  · intro env2 h2 hcq
    obtain ⟨r, hr⟩ := hq
    have hne : q ≠ [] := by
      rw [hr]
      simp
    have hpq : p ≠ q := by
      intro e
      have hlen := congrArg List.length hr
      rw [← e] at hlen
      simp at hlen
    rw [haveDebugTag_eq, haveDebugTag_eq, h2, tokens_of_not_mem hne hcq]
    simp [hpq]

/-- The statement of C7 at the configuration `goanalysis/analyze,goanalysis/facts`
for `goanalysis` and `goanalysis/analyze`. -/
theorem no_hierarchical_matching_witness :
    HaveDebugTag (getEnabledDebugs [(envDebug, ascii "goanalysis/analyze,goanalysis/facts")])
      (ascii "goanalysis/analyze") = true ∧
    HaveDebugTag (getEnabledDebugs [(envDebug, ascii "goanalysis/analyze,goanalysis/facts")])
      (ascii "goanalysis") = false :=
  (no_hierarchical_matching [(envDebug, ascii "goanalysis/analyze,goanalysis/facts")]
    (ascii "goanalysis") (ascii "goanalysis/analyze")
    ⟨ascii "analyze", by decide⟩ (by decide) (by decide)).1

theorem isPiece_nil_iff (sep : UInt8) (s : GoString) (hs : s ≠ []) :
    IsPiece sep [] s ↔
      ((∃ r, s = sep :: r) ∨ (∃ l, s = l ++ [sep]) ∨ (∃ l r, s = l ++ sep :: sep :: r)) := by
  constructor
  · rintro ⟨_, l, r, hlr, hl, hr⟩
    simp only [List.append_nil] at hlr
    rcases hl with hl | ⟨l1, hl⟩ <;> rcases hr with hr | ⟨r1, hr⟩ <;> subst hl <;> subst hr
    · exact absurd (by simpa using hlr) hs
    · exact Or.inl ⟨r1, by simpa using hlr⟩
    · exact Or.inr (Or.inl ⟨l1, by simpa using hlr⟩)
    · exact Or.inr (Or.inr ⟨l1, r1, by simpa using hlr⟩)
  · intro h
    refine ⟨by simp, ?_⟩
    rcases h with ⟨r, h⟩ | ⟨l, h⟩ | ⟨l, r, h⟩
    · exact ⟨[], sep :: r, by simpa using h, Or.inl rfl, Or.inr ⟨r, rfl⟩⟩
    · exact ⟨l ++ [sep], [], by simpa using h, Or.inr ⟨l, rfl⟩, Or.inl rfl⟩
    · exact ⟨l ++ [sep], sep :: r, by simpa using h, Or.inr ⟨l, rfl⟩, Or.inr ⟨r, rfl⟩⟩

/-- C8: the empty name `DebugKeyEmpty` is enabled exactly when the configuration
string is non-empty and begins with a comma, ends with a comma, or holds two
commas in a row; and for a non-empty name the lookup gives what it gives in the
map built from the non-empty tokens alone, so an empty token enables no
non-empty name. -/
theorem empty_name_iff_stray_comma (env : Env) (c : GoString) (hc : c ≠ DebugKeyEmpty) :
    (HaveDebugTag (getEnabledDebugs env) DebugKeyEmpty = true ↔
      Getenv env envDebug ≠ [] ∧
        ((∃ r, Getenv env envDebug = comma :: r) ∨
         (∃ l, Getenv env envDebug = l ++ [comma]) ∨
         (∃ l r, Getenv env envDebug = l ++ comma :: comma :: r))) ∧
    HaveDebugTag (getEnabledDebugs env) c =
      HaveDebugTag (rangeSetTrue ((Split (Getenv env envDebug) comma).filter (fun t => t ≠ [])) [])
        c := by
  constructor
  · rw [haveDebugTag_iff, mem_tokens_iff]
    constructor
    · rintro ⟨hs, hp⟩
      exact ⟨hs, (isPiece_nil_iff comma _ hs).mp hp⟩
    · rintro ⟨hs, hp⟩
      exact ⟨hs, (isPiece_nil_iff comma _ hs).mpr hp⟩
  · have hc2 : c ≠ [] := hc
    simp only [HaveDebugTag, getEnabledDebugs]
    by_cases hs : Getenv env envDebug = []
    · rw [if_pos hs, hs]
      rfl
    · rw [if_neg hs, get_rangeSetTrue, get_rangeSetTrue]
      simp [List.mem_filter, hc2]

/-- The statement of C8 at the configuration `,runner`, for the name `runner`. -/
theorem empty_name_iff_stray_comma_witness :
    HaveDebugTag (getEnabledDebugs [(envDebug, ascii ",runner")]) DebugKeyEmpty = true ∧
    HaveDebugTag (getEnabledDebugs [(envDebug, ascii ",runner")]) (ascii "runner") =
      HaveDebugTag (rangeSetTrue [ascii "runner"] []) (ascii "runner") :=
  ⟨(empty_name_iff_stray_comma [(envDebug, ascii ",runner")] (ascii "runner") (by decide)).1.mpr
      ⟨by decide, Or.inl ⟨ascii "runner", by decide⟩⟩,
   (empty_name_iff_stray_comma [(envDebug, ascii ",runner")] (ascii "runner") (by decide)).2⟩

/-- C9: for a name that is not in the enabled set, `Debug` returns `nopDebugf`
and changes nothing, and a run of any number of calls of that function, with any
formats and arguments, from any world, returns the world it was given: nothing
is written, no logger and no entry of the enabled set changes; a call always
returns a world, there is no failing outcome. -/
theorem debug_disabled_is_noop {Value : Type} (w : World Value) (tag : GoString)
    (h : HaveDebugTag w.enabledDebugs tag = false) :
    Debug w tag = (DebugFunc.nopDebugf, w) ∧
    (∀ (format : GoString) (args : List Value) (w2 : World Value),
      (Debug w tag).1.call format args w2 = w2) ∧
    (∀ (calls : List (GoString × List Value)) (w2 : World Value),
      (Debug w tag).1.callAll calls w2 = w2 ∧
      ((Debug w tag).1.callAll calls w2).stderr = w2.stderr ∧
      ((Debug w tag).1.callAll calls w2).loggers = w2.loggers ∧
      ((Debug w tag).1.callAll calls w2).enabledDebugs = w2.enabledDebugs) := by
  rw [Debug_of_disabled w tag h]
  refine ⟨rfl, fun _ _ _ => rfl, fun calls w2 => ?_⟩
  have e : DebugFunc.nopDebugf.callAll calls w2 = w2 := callAll_nopDebugf calls w2
  exact ⟨e, congrArg World.stderr e, congrArg World.loggers e, congrArg World.enabledDebugs e⟩

/-- The statement of C9 at the configuration `linters_output,runner` for the
name `lintersdb`, with two calls in a world with two loggers. -/
theorem debug_disabled_is_noop_witness :
    Debug (initWorld (ascii "linters_output,runner")) (ascii "lintersdb") =
      (DebugFunc.nopDebugf, initWorld (ascii "linters_output,runner")) ∧
    (Debug (initWorld (ascii "linters_output,runner")) (ascii "lintersdb")).1.callAll
      [(ascii "start %d", [1]), (ascii "done", [])] twoLoggers = twoLoggers :=
  ⟨(debug_disabled_is_noop (initWorld (ascii "linters_output,runner")) (ascii "lintersdb")
      (by decide)).1,
   ((debug_disabled_is_noop (initWorld (ascii "linters_output,runner")) (ascii "lintersdb")
      (by decide)).2.2 _ twoLoggers).1⟩

/-- C10 as stated fails: `gosec` is not a `DebugKey` constant, and with
`GL_DEBUG=gosec` it is enabled and `Debug` returns the function literal, not
`nopDebugf`. -/
theorem unknown_name_can_match :
    ascii "gosec" ∉ debugKeys ∧
    HaveDebugTag (getEnabledDebugs [(envDebug, ascii "gosec")]) (ascii "gosec") = true ∧
    (Debug (initWorld (ascii "gosec")) (ascii "gosec")).1 = DebugFunc.funcLit 0 := by
  refine ⟨?_, ?_, ?_⟩ <;> decide

/-- C10, amended: a name, `DebugKey` constant or not, is enabled exactly when
it is a token of the configuration string; a name that is not a token, unknown
names included, has `HaveDebugTag` false and gets `nopDebugf` from `Debug`, which
changes nothing, exactly as a `DebugKey` constant that is not a token. -/
theorem unknown_name_like_known {Value : Type} (env : Env) (w : World Value)
    (hw : w.enabledDebugs = getEnabledDebugs env) :
    (∀ c : GoString,
      HaveDebugTag w.enabledDebugs c = true ↔ c ∈ tokens (Getenv env envDebug)) ∧
    (∀ c : GoString, c ∉ debugKeys → c ∉ tokens (Getenv env envDebug) →
      HaveDebugTag w.enabledDebugs c = false ∧ Debug w c = (DebugFunc.nopDebugf, w)) ∧
    (∀ k : GoString, k ∈ debugKeys → k ∉ tokens (Getenv env envDebug) →
      HaveDebugTag w.enabledDebugs k = false ∧ Debug w k = (DebugFunc.nopDebugf, w)) := by
  have hoff : ∀ k : GoString, k ∉ tokens (Getenv env envDebug) →
      HaveDebugTag w.enabledDebugs k = false ∧ Debug w k = (DebugFunc.nopDebugf, w) := by
    intro k hk
    have hf : HaveDebugTag w.enabledDebugs k = false := by
      rw [hw, haveDebugTag_eq]
      exact decide_eq_false hk
    exact ⟨hf, Debug_of_disabled w k hf⟩
  refine ⟨fun c => ?_, fun c _ hc => hoff c hc, fun k _ hk => hoff k hk⟩
  rw [hw]
  exact haveDebugTag_iff env c

/-- The statement of amended C10 at the configuration `linters_output,runner`
for the unknown name `gosec` and the known name `lintersdb`. -/
theorem unknown_name_like_known_witness :
    (HaveDebugTag (initWorld (ascii "linters_output,runner")).enabledDebugs (ascii "gosec") = false ∧
      Debug (initWorld (ascii "linters_output,runner")) (ascii "gosec") =
        (DebugFunc.nopDebugf, initWorld (ascii "linters_output,runner"))) ∧
    (HaveDebugTag (initWorld (ascii "linters_output,runner")).enabledDebugs DebugKeyLintersDB = false ∧
      Debug (initWorld (ascii "linters_output,runner")) DebugKeyLintersDB =
        (DebugFunc.nopDebugf, initWorld (ascii "linters_output,runner"))) :=
  ⟨(unknown_name_like_known [(envDebug, ascii "linters_output,runner")]
      (initWorld (ascii "linters_output,runner")) rfl).2.1 (ascii "gosec") (by decide) (by decide),
   (unknown_name_like_known [(envDebug, ascii "linters_output,runner")]
      (initWorld (ascii "linters_output,runner")) rfl).2.2
      DebugKeyLintersDB (by decide) (by decide)⟩

/-! ## One name at a time, the registry, determinism -/

theorem haveDebugTag_single (env : Env) (c d : GoString) (hne : c ≠ []) (hc : comma ∉ c)
    (h : Getenv env envDebug = c) :
    HaveDebugTag (getEnabledDebugs env) d = decide (d = c) := by
  rw [haveDebugTag_eq, h, tokens_of_not_mem hne hc]
  simp

/-- C11: the registry is advisory: for every non-empty string `c` without a
comma, `DebugKey` constant or not, the configuration string `c` enables `c` and
nothing else: `HaveDebugTag` is true for `d` exactly when `d = c`. -/
theorem single_name_enables_itself (env : Env) (c : GoString) (hne : c ≠ [])
    (hc : comma ∉ c) (h : Getenv env envDebug = c) :
    (∀ d : GoString, HaveDebugTag (getEnabledDebugs env) d = true ↔ d = c) ∧
    getEnabledDebugs env = [(c, true)] := by
  constructor
  · intro d
    rw [haveDebugTag_single env c d hne hc h]
    simp
  · simp only [getEnabledDebugs, h, if_neg hne, Split_eq_cutAt, cutAt_of_not_mem hc]
    rfl

/-- The statement of C11 at the configuration `gosec`, a name that is not a
`DebugKey` constant. -/
theorem single_name_enables_itself_witness :
    ascii "gosec" ∉ debugKeys ∧
    (∀ d : GoString,
      HaveDebugTag (getEnabledDebugs [(envDebug, ascii "gosec")]) d = true ↔ d = ascii "gosec") ∧
    getEnabledDebugs [(envDebug, ascii "gosec")] = [(ascii "gosec", true)] :=
  ⟨by decide,
   single_name_enables_itself [(envDebug, ascii "gosec")] (ascii "gosec")
     (by decide) (by decide) (by decide)⟩

set_option maxRecDepth 100000 in
/-- C12: the `DebugKey` constants, thirty-nine of them over the three `const`
blocks, are pairwise distinct strings. -/
theorem debugKeys_nodup :
    debugKeys.Nodup ∧ debugKeys.length = 39 ∧
    List.Pairwise (fun a b => a ≠ b) debugKeys := by
  have h : debugKeys.Nodup := by decide
  exact ⟨h, rfl, h⟩

/-- C13: resolution depends on the environment through the value of `GL_DEBUG`
only: two environments with the same value give the same map, hence the same
answer of `HaveDebugTag` for every name, and `Debug` makes the same choice
between `nopDebugf` and the function literal for every name, in any two worlds
that hold the two maps. -/
theorem resolution_deterministic {Value : Type} (env1 env2 : Env) (w1 w2 : World Value)
    (h : Getenv env1 envDebug = Getenv env2 envDebug)
    (h1 : w1.enabledDebugs = getEnabledDebugs env1)
    (h2 : w2.enabledDebugs = getEnabledDebugs env2) :
    getEnabledDebugs env1 = getEnabledDebugs env2 ∧
    (∀ c : GoString,
      HaveDebugTag (getEnabledDebugs env1) c = HaveDebugTag (getEnabledDebugs env2) c) ∧
    (∀ c : GoString,
      ((Debug w1 c).1 = DebugFunc.nopDebugf ↔ (Debug w2 c).1 = DebugFunc.nopDebugf)) := by
  have he : getEnabledDebugs env1 = getEnabledDebugs env2 := by
    simp only [getEnabledDebugs, h]
  refine ⟨he, fun c => by rw [he], fun c => ?_⟩
  have e12 : w1.enabledDebugs = w2.enabledDebugs := by rw [h1, h2, he]
  cases hg : w2.enabledDebugs.get c with
  | false =>
    rw [Debug_of_disabled w1 c (by rw [e12]; exact hg), Debug_of_disabled w2 c hg]
  | true =>
    rw [Debug_of_enabled w1 c (by rw [e12]; exact hg), Debug_of_enabled w2 c hg]
    simp

/-- The statement of C13 at two environments that differ outside `GL_DEBUG`
and two worlds that differ in their loggers. -/
theorem resolution_deterministic_witness :
    getEnabledDebugs (homeEnv (ascii "runner,loader")) =
      getEnabledDebugs [(envDebug, ascii "runner,loader")] ∧
    ((Debug (twoLoggersIn (homeEnv (ascii "runner,loader"))) (ascii "loader")).1 =
        DebugFunc.nopDebugf ↔
      (Debug (initWorld (ascii "runner,loader")) (ascii "loader")).1 = DebugFunc.nopDebugf) :=
  ⟨(resolution_deterministic (homeEnv (ascii "runner,loader"))
      [(envDebug, ascii "runner,loader")]
      (twoLoggersIn (homeEnv (ascii "runner,loader")))
      (initWorld (ascii "runner,loader")) (by decide) rfl rfl).1,
   (resolution_deterministic (homeEnv (ascii "runner,loader"))
      [(envDebug, ascii "runner,loader")]
      (twoLoggersIn (homeEnv (ascii "runner,loader")))
      (initWorld (ascii "runner,loader")) (by decide) rfl rfl).2.2 (ascii "loader")⟩

/-! ## Joining configuration strings, counting names, names with a comma -/

theorem tokens_append {a b : GoString} (ha : a ≠ []) (hb : b ≠ []) :
    tokens (a ++ comma :: b) = tokens a ++ tokens b := by
  have hab : a ++ comma :: b ≠ [] := by simp
  simp only [tokens, if_neg ha, if_neg hb, if_neg hab, cutAt_append]

/-- C14: for non-empty `a` and `b`, the configuration string `a,b` enables
exactly the names that `a` enables together with those that `b` enables; hence
`b,a` enables the same names as `a,b`, and `a,a` the same names as `a`. -/
theorem join_is_union (a b : GoString) (ha : a ≠ []) (hb : b ≠ [])
    (envA envB envAB envBA envAA : Env)
    (hA : Getenv envA envDebug = a) (hB : Getenv envB envDebug = b)
    (hAB : Getenv envAB envDebug = a ++ comma :: b)
    (hBA : Getenv envBA envDebug = b ++ comma :: a)
    (hAA : Getenv envAA envDebug = a ++ comma :: a) (c : GoString) :
    HaveDebugTag (getEnabledDebugs envAB) c =
      (HaveDebugTag (getEnabledDebugs envA) c || HaveDebugTag (getEnabledDebugs envB) c) ∧
    HaveDebugTag (getEnabledDebugs envBA) c = HaveDebugTag (getEnabledDebugs envAB) c ∧
    HaveDebugTag (getEnabledDebugs envAA) c = HaveDebugTag (getEnabledDebugs envA) c := by
  simp only [haveDebugTag_eq, hA, hB, hAB, hBA, hAA, tokens_append ha hb, tokens_append hb ha,
    tokens_append ha ha, List.mem_append]
  refine ⟨?_, ?_, ?_⟩
  · by_cases h1 : c ∈ tokens a <;> by_cases h2 : c ∈ tokens b <;> simp [h1, h2]
  · by_cases h1 : c ∈ tokens a <;> by_cases h2 : c ∈ tokens b <;> simp [h1, h2]
  · by_cases h1 : c ∈ tokens a <;> simp [h1]

/-- The statement of C14 for `a = runner` and `b = loader,runner`, asked
about `loader`. -/
theorem join_is_union_witness :
    HaveDebugTag (getEnabledDebugs [(envDebug, ascii "runner,loader,runner")]) (ascii "loader") =
      (HaveDebugTag (getEnabledDebugs [(envDebug, ascii "runner")]) (ascii "loader") ||
        HaveDebugTag (getEnabledDebugs [(envDebug, ascii "loader,runner")]) (ascii "loader")) ∧
    HaveDebugTag (getEnabledDebugs [(envDebug, ascii "loader,runner,runner")]) (ascii "loader") =
      HaveDebugTag (getEnabledDebugs [(envDebug, ascii "runner,loader,runner")])
        (ascii "loader") ∧
    HaveDebugTag (getEnabledDebugs [(envDebug, ascii "runner,runner")]) (ascii "loader") =
      HaveDebugTag (getEnabledDebugs [(envDebug, ascii "runner")]) (ascii "loader") :=
  join_is_union (ascii "runner") (ascii "loader,runner") (by decide) (by decide)
    [(envDebug, ascii "runner")] [(envDebug, ascii "loader,runner")]
    [(envDebug, ascii "runner,loader,runner")] [(envDebug, ascii "loader,runner,runner")]
    [(envDebug, ascii "runner,runner")]
    (by decide) (by decide) (by decide) (by decide) (by decide) (ascii "loader")

theorem length_cutAt (sep : UInt8) (s : GoString) : (cutAt sep s).length = Count s sep + 1 := by
  induction s with
  | nil => rfl
  | cons b s ih =>
    by_cases hb : b = sep
    · simp [cutAt, Count, hb, ih]
    · simp only [cutAt, Count, if_neg hb]
      cases hc : cutAt sep s with
      | nil => exact absurd hc (cutAt_ne_nil sep s)
      | cons p ps =>
        rw [hc] at ih
        simpa using ih

theorem GoMap.len_set_le (m : GoMap) (k : GoString) (v : Bool) : (m.set k v).len ≤ m.len + 1 := by
  simp only [GoMap.len, GoMap.set, List.length_cons]
  exact Nat.succ_le_succ (List.length_filter_le _ m)

theorem len_rangeSetTrue_le (toks : List GoString) (m : GoMap) :
    (rangeSetTrue toks m).len ≤ m.len + toks.length := by
  induction toks generalizing m with
  | nil => exact Nat.le_refl _
  | cons t toks ih =>
    have e : rangeSetTrue (t :: toks) m = rangeSetTrue toks (m.set t true) := rfl
    rw [e]
    have h1 := ih (m.set t true)
    have h2 := GoMap.len_set_le m t true
    simp only [List.length_cons]
    omega

theorem nil_mem_cutAt_of_all_sep (sep : UInt8) (s : GoString) (h : ∀ b ∈ s, b = sep) :
    [] ∈ cutAt sep s := by
  cases s with
  | nil => simp [cutAt]
  | cons b s =>
    have hb : b = sep := h b (by simp)
    simp [cutAt, hb]

/-- C15: for a non-empty configuration string the enabled set is not empty:
some name is enabled; the names enabled are at most one more than the commas
of the string, and so are the entries of the map; and a non-empty string made
of commas only enables the empty name. -/
theorem nonempty_config_enables_some (env : Env) (hs : Getenv env envDebug ≠ []) :
    (∃ c : GoString, HaveDebugTag (getEnabledDebugs env) c = true) ∧
    getEnabledDebugs env ≠ [] ∧
    (∀ names : List GoString, names.Nodup →
      (∀ c ∈ names, HaveDebugTag (getEnabledDebugs env) c = true) →
      names.length ≤ Count (Getenv env envDebug) comma + 1) ∧
    (getEnabledDebugs env).len ≤ Count (Getenv env envDebug) comma + 1 ∧
    ((∀ b ∈ Getenv env envDebug, b = comma) →
      HaveDebugTag (getEnabledDebugs env) DebugKeyEmpty = true) := by
  have htok : tokens (Getenv env envDebug) = cutAt comma (Getenv env envDebug) := by
    simp [tokens, hs]
  have hex : ∃ c : GoString, HaveDebugTag (getEnabledDebugs env) c = true := by
    cases hc : cutAt comma (Getenv env envDebug) with
    | nil => exact absurd hc (cutAt_ne_nil _ _)
    | cons p ps =>
      refine ⟨p, (haveDebugTag_iff env p).mpr ?_⟩
      rw [htok, hc]
      simp
  refine ⟨hex, ?_, ?_, ?_, ?_⟩
  · intro he
    obtain ⟨c, hc⟩ := hex
    rw [he] at hc
    cases hc
  · intro names hnd hall
    have hsub : names ⊆ cutAt comma (Getenv env envDebug) := by
      intro c hc
      rw [← htok]
      exact (haveDebugTag_iff env c).mp (hall c hc)
    have hle := (List.subperm_of_subset hnd hsub).length_le
    rw [length_cutAt] at hle
    exact hle
  · simp only [getEnabledDebugs, if_neg hs]
    have h := len_rangeSetTrue_le (Split (Getenv env envDebug) comma) []
    rw [Split_eq_cutAt, length_cutAt] at h
    rw [Split_eq_cutAt]
    simpa [GoMap.len] using h
  · intro hall
    refine (haveDebugTag_iff env DebugKeyEmpty).mpr ?_
    rw [htok]
    exact nil_mem_cutAt_of_all_sep comma _ hall

/-- The statement of C15 at the configuration `,,`: the empty name is
enabled, the map is not empty and has at most three entries. -/
theorem nonempty_config_enables_some_witness :
    HaveDebugTag (getEnabledDebugs [(envDebug, ascii ",,")]) DebugKeyEmpty = true ∧
    (getEnabledDebugs [(envDebug, ascii ",,")]).len ≤ 3 ∧
    getEnabledDebugs [(envDebug, ascii ",,")] ≠ [] :=
  ⟨(nonempty_config_enables_some [(envDebug, ascii ",,")] (by decide)).2.2.2.2 (by decide),
   (nonempty_config_enables_some [(envDebug, ascii ",,")] (by decide)).2.2.2.1,
   (nonempty_config_enables_some [(envDebug, ascii ",,")] (by decide)).2.1⟩

theorem not_mem_of_mem_tokens {c s : GoString} (h : c ∈ tokens s) : comma ∉ c :=
  ((mem_tokens_iff c s).mp h).2.1

/-- C16: a name that holds a comma is never enabled: whatever the
configuration string, `HaveDebugTag` true for `c` means `c` has no comma, and
for a `c` with a comma `HaveDebugTag` is false and `Debug` returns `nopDebugf`
and changes nothing. -/
theorem comma_name_never_enabled {Value : Type} (env : Env) (w : World Value) (c : GoString)
    (hw : w.enabledDebugs = getEnabledDebugs env) :
    (HaveDebugTag (getEnabledDebugs env) c = true → comma ∉ c) ∧
    (comma ∈ c →
      HaveDebugTag (getEnabledDebugs env) c = false ∧
      Debug w c = (DebugFunc.nopDebugf, w)) := by
  have h1 : HaveDebugTag (getEnabledDebugs env) c = true → comma ∉ c :=
    fun h => not_mem_of_mem_tokens ((haveDebugTag_iff env c).mp h)
  refine ⟨h1, fun hc => ?_⟩
  have hf : HaveDebugTag (getEnabledDebugs env) c = false := by
    cases hh : HaveDebugTag (getEnabledDebugs env) c with
    | false => rfl
    | true => exact absurd hc (h1 hh)
  refine ⟨hf, Debug_of_disabled w c ?_⟩
  rw [hw]
  exact hf

/-- The statement of C16 at the configuration `runner,loader` for the name
`runner,loader` itself. -/
theorem comma_name_never_enabled_witness :
    HaveDebugTag (getEnabledDebugs [(envDebug, ascii "runner,loader")])
      (ascii "runner,loader") = false ∧
    Debug (initWorld (ascii "runner,loader")) (ascii "runner,loader") =
      (DebugFunc.nopDebugf, initWorld (ascii "runner,loader")) :=
  (comma_name_never_enabled [(envDebug, ascii "runner,loader")]
    (initWorld (ascii "runner,loader")) (ascii "runner,loader") rfl).2 (by decide)

set_option maxRecDepth 100000 in
theorem debugKeys_plain : ∀ k ∈ debugKeys, k ≠ DebugKeyEmpty → k ≠ [] ∧ comma ∉ k := by
  decide

/-- C17: every `DebugKey` constant other than `DebugKeyEmpty` is a non-empty
string without a comma, and the configuration string that is this constant
alone makes `HaveDebugTag` true for it, makes `Debug` return the function
literal for it, and leaves every other `DebugKey` constant disabled, the
constants that extend it or that it extends with `/` included. -/
theorem each_key_alone {Value : Type} (env : Env) (w : World Value) (k : GoString)
    (hk : k ∈ debugKeys) (hne : k ≠ DebugKeyEmpty)
    (h : Getenv env envDebug = k) (hw : w.enabledDebugs = getEnabledDebugs env) :
    (k ≠ [] ∧ comma ∉ k) ∧
    HaveDebugTag (getEnabledDebugs env) k = true ∧
    (Debug w k).1 = DebugFunc.funcLit w.loggers.length ∧
    (∀ k2 ∈ debugKeys, k2 ≠ k →
      HaveDebugTag (getEnabledDebugs env) k2 = false ∧
      Debug w k2 = (DebugFunc.nopDebugf, w)) := by
  obtain ⟨h1, h2⟩ := debugKeys_plain k hk hne
  have hon : HaveDebugTag (getEnabledDebugs env) k = true := by
    rw [haveDebugTag_single env k k h1 h2 h]
    simp
  refine ⟨⟨h1, h2⟩, hon, ?_, ?_⟩
  · rw [Debug_of_enabled w k (by rw [hw]; exact hon)]
  · intro k2 _ hne2
    have hoff : HaveDebugTag (getEnabledDebugs env) k2 = false := by
      rw [haveDebugTag_single env k k2 h1 h2 h]
      simp [hne2]
    exact ⟨hoff, Debug_of_disabled w k2 (by rw [hw]; exact hoff)⟩

/-- The statement of C17 for `goanalysis/facts`: alone in `GL_DEBUG` it is
enabled, and `goanalysis` and `goanalysis/facts/cache` are not. -/
theorem each_key_alone_witness :
    HaveDebugTag (getEnabledDebugs [(envDebug, DebugKeyGoAnalysisFacts)])
      DebugKeyGoAnalysisFacts = true ∧
    (Debug (initWorld DebugKeyGoAnalysisFacts) DebugKeyGoAnalysisFacts).1 =
      DebugFunc.funcLit 0 ∧
    HaveDebugTag (getEnabledDebugs [(envDebug, DebugKeyGoAnalysisFacts)])
      DebugKeyGoAnalysis = false ∧
    HaveDebugTag (getEnabledDebugs [(envDebug, DebugKeyGoAnalysisFacts)])
      DebugKeyGoAnalysisFactsCache = false :=
  ⟨(each_key_alone [(envDebug, DebugKeyGoAnalysisFacts)] (initWorld DebugKeyGoAnalysisFacts)
      DebugKeyGoAnalysisFacts (by decide) (by decide) (by decide) rfl).2.1,
   (each_key_alone [(envDebug, DebugKeyGoAnalysisFacts)] (initWorld DebugKeyGoAnalysisFacts)
      DebugKeyGoAnalysisFacts (by decide) (by decide) (by decide) rfl).2.2.1,
   ((each_key_alone [(envDebug, DebugKeyGoAnalysisFacts)] (initWorld DebugKeyGoAnalysisFacts)
      DebugKeyGoAnalysisFacts (by decide) (by decide) (by decide) rfl).2.2.2
      DebugKeyGoAnalysis (by decide) (by decide)).1,
   ((each_key_alone [(envDebug, DebugKeyGoAnalysisFacts)] (initWorld DebugKeyGoAnalysisFacts)
      DebugKeyGoAnalysisFacts (by decide) (by decide) (by decide) rfl).2.2.2
      DebugKeyGoAnalysisFactsCache (by decide) (by decide)).1⟩

end Logutils
